import Mathlib

/-!
Shallow embedding of the traffic-light detection simulation implemented in
`src/page.tsx` (component `TrafficLightDetection`), together with proofs about
its deterministic labeler, batch orchestrator and accuracy aggregator.

JavaScript numbers appearing in the embedded code fall into two groups:
the 32-bit hash arithmetic (`hash << 5`, `hash & hash`) is exact signed 32-bit
integer arithmetic and is modelled with `Int` plus an explicit reduction
modulo `2 ^ 32`; the remaining arithmetic on confidences, progress values and
times stays within small exact decimal fractions and integer quotients and is
modelled with `ℚ`.
-/

set_option maxRecDepth 100000

namespace TrafficLightSim

/-! ## The deterministic hash (`getDeterministicRandom`, page.tsx 97-106) -/

/-- Reduction of an integer into the signed 32-bit range `[-2^31, 2^31)`,
the effect of JavaScript's `ToInt32` coercion performed by `<<` and `&`. -/
def toInt32 (n : Int) : Int :=
  let m := n % 4294967296
  if m < 2147483648 then m else m - 4294967296

/-- One iteration of the loop body
`hash = (hash << 5) - hash + char; hash = hash & hash`:
the shift coerces `hash * 32` to 32 bits, the subtraction and addition are
exact, and `hash & hash` coerces the result back to 32 bits. -/
def hashStep (hash : Int) (char : Nat) : Int :=
  toInt32 (toInt32 (hash * 32) - hash + char)

/-- The rolling hash of a string: `hash` starts at `0` and every UTF-16 code
unit (here: the code point of each character) is folded in with `hashStep`. -/
def hashString (str : String) : Int :=
  str.toList.foldl (fun hash c => hashStep hash c.toNat) 0

/-- `getDeterministicRandom(seed, index = 0)`: hash `seed + index.toString()`
and return `Math.abs(hash) / 2147483647`.  (The source's default argument
`index = 0` is passed explicitly at every call site of this embedding.) -/
def getDeterministicRandom (seed : String) (index : Nat) : ℚ :=
  ((hashString (seed ++ toString index)).natAbs : ℚ) / 2147483647

/-! ## String operations used by the labeler -/

/-- `s.includes(sub)` of JavaScript on the underlying character lists:
some position of the first list starts with the second list. -/
def containsSub (sub : List Char) : List Char → Bool
  | [] => sub.isEmpty
  | c :: rest => sub.isPrefixOf (c :: rest) || containsSub sub rest

/-- `fileName.includes(keyword)`. -/
def strIncludes (s sub : String) : Bool :=
  containsSub sub.toList s.toList

/-- `fileName.toLowerCase()`, modelled character-wise with `Char.toLower`
(UTF-16 basic-latin lowering, which is what the file names at issue use). -/
def toLowerString (s : String) : String :=
  String.mk (s.toList.map Char.toLower)

/-! ## Data model (page.tsx 28-66) -/

/-- The status field of `FileResult`:
`"pending" | "processing" | "completed" | "error"`. -/
inductive FileStatus
  | pending
  | processing
  | completed
  | error
deriving DecidableEq

/-- A browser `File` value as far as this component observes it: its `name`,
`size`, MIME `type` (field `ftype`, since `type` is reserved in Lean) and its
bytes (field `content`, only ever read through the preview reader). -/
structure JSFile where
  name : String
  size : Nat
  ftype : String
  content : List Nat
deriving DecidableEq

/-- `interface Detection` (the `class` field is spelled `cls`). -/
structure Detection where
  bbox : List Int
  confidence : ℚ
  cls : String
  light_state : String
deriving DecidableEq

/-- `interface FileResult`. -/
structure FileResult where
  fileName : String
  fileSize : String
  detections : List Detection
  processing_time : ℚ
  file_type : String
  image_preview : Option String
  status : FileStatus
  file : JSFile
deriving DecidableEq

/-- `interface ManualAnnotation`. -/
structure ManualAnnotation where
  fileName : String
  humanLabel : String
  confidence : ℚ
deriving DecidableEq

/-- `interface ComparisonResult`. -/
structure ComparisonResult where
  fileName : String
  humanLabel : String
  modelPrediction : String
  modelConfidence : ℚ
  isCorrect : Bool
  file : JSFile
deriving DecidableEq

/-! ## The deterministic labeler (`analyzeImageForTrafficLights`, page.tsx 216-299) -/

/-- `const baseConfidence = 0.75 + getDeterministicRandom(fileName) * 0.2`. -/
def baseConfidence (fileName : String) : ℚ :=
  0.75 + getDeterministicRandom fileName 0 * 0.2

/-- `const bboxVariation1 = Math.floor(getDeterministicRandom(fileName, 1) * 50)`. -/
def bboxVariation1 (fileName : String) : Int :=
  ⌊getDeterministicRandom fileName 1 * 50⌋

/-- `const bboxVariation2 = Math.floor(getDeterministicRandom(fileName, 2) * 30)`. -/
def bboxVariation2 (fileName : String) : Int :=
  ⌊getDeterministicRandom fileName 2 * 30⌋

/-- Confidence of the rule-5 generic detection:
`0.45 + getDeterministicRandom(fileName, 6) * 0.2`. -/
def genericConfidence (fileName : String) : ℚ :=
  0.45 + getDeterministicRandom fileName 6 * 0.2

/-- `analyzeImageForTrafficLights(file)`: lowercase the file name, then let
each of the five keyword rules push its detections in order. -/
def analyzeImageForTrafficLights (file : JSFile) : List Detection :=
  let fileName := toLowerString file.name
  (if strIncludes fileName "red" || strIncludes fileName "stop" then
    [{ bbox := [150 + bboxVariation1 fileName, 100 + bboxVariation2 fileName, 200, 180],
       confidence := baseConfidence fileName, cls := "traffic_light",
       light_state := "red_light" }]
   else []) ++
  (if strIncludes fileName "green" || strIncludes fileName "go" then
    [{ bbox := [300 + bboxVariation1 fileName, 120 + bboxVariation2 fileName, 350, 200],
       confidence := baseConfidence fileName, cls := "traffic_light",
       light_state := "green_light" }]
   else []) ++
  (if strIncludes fileName "yellow" || strIncludes fileName "amber" ||
      strIncludes fileName "caution" then
    [{ bbox := [250 + bboxVariation1 fileName, 110 + bboxVariation2 fileName, 300, 190],
       confidence := baseConfidence fileName, cls := "traffic_light",
       light_state := "yellow_light" }]
   else []) ++
  (if strIncludes fileName "traffic" && !strIncludes fileName "red" &&
      !strIncludes fileName "green" && !strIncludes fileName "yellow" then
    [{ bbox := [120, 80, 170, 160], confidence := baseConfidence fileName,
       cls := "traffic_light", light_state := "red_light" },
     { bbox := [120, 170, 170, 250], confidence := baseConfidence fileName - 0.05,
       cls := "traffic_light", light_state := "yellow_light" },
     { bbox := [120, 260, 170, 340], confidence := baseConfidence fileName + 0.02,
       cls := "traffic_light", light_state := "green_light" }]
   else []) ++
  (if strIncludes fileName "light" || strIncludes fileName "signal" ||
      decide (getDeterministicRandom fileName 3 > 0.7) then
    [{ bbox := [200 + ⌊getDeterministicRandom fileName 4 * 100⌋,
                150 + ⌊getDeterministicRandom fileName 5 * 50⌋, 250, 230],
       confidence := genericConfidence fileName, cls := "traffic_light",
       light_state := "traffic_light" }]
   else [])

/-! ## Primary detection (page.tsx 419-422 and 820-825) -/

/-- `detections.length > 0 ? detections.reduce((prev, current) =>
prev.confidence > current.confidence ? prev : current) : null`. -/
def primaryDetection (detections : List Detection) : Option Detection :=
  match detections with
  | [] => none
  | d :: rest =>
      some (rest.foldl
        (fun prev current => if prev.confidence > current.confidence then prev else current) d)

/-- Written from the spec's words, for comparison with `primaryDetection`:
among the Detections sharing the maximum confidence, "the first one
encountered" in the list. -/
def firstMaxDetection (detections : List Detection) : Option Detection :=
  detections.find? fun d =>
    detections.all fun q => decide (q.confidence ≤ d.confidence)

/-- Written from the spec's words as amended: among the Detections sharing the
maximum confidence, the last one in the list (the first one of the reversed
list). -/
def lastMaxDetection (detections : List Detection) : Option Detection :=
  detections.reverse.find? fun d =>
    detections.all fun q => decide (q.confidence ≤ d.confidence)

/-! ## Accuracy aggregation (`calculateAccuracyMetrics`, page.tsx 324-354) -/

/-- One entry of the `classStats` object: `{ correct: 0, total: 0 }`. -/
@[ext]
structure ClassStat where
  correct : Nat
  total : Nat
deriving DecidableEq

/-- The `classStats` object with its four fixed keys. -/
@[ext]
structure ClassStats where
  red_light : ClassStat
  yellow_light : ClassStat
  green_light : ClassStat
  traffic_light : ClassStat
deriving DecidableEq

/-- The record returned by `calculateAccuracyMetrics`. -/
structure AccuracyMetrics where
  overall : ℚ
  total : Nat
  correct : Nat
  classStats : ClassStats
deriving DecidableEq

/-- The per-result update of one `classStats` entry:
`total++`, and `correct++` when `result.isCorrect`. -/
def tallyClassStat (s : ClassStat) (result : ComparisonResult) : ClassStat :=
  { correct := if result.isCorrect then s.correct + 1 else s.correct,
    total := s.total + 1 }

/-- The body of `comparisonResults.forEach`: the entry keyed by
`result.humanLabel` is updated when that key is one of the four fixed keys of
`classStats`, and nothing happens otherwise. -/
def updateClassStats (stats : ClassStats) (result : ComparisonResult) : ClassStats :=
  if result.humanLabel = "red_light" then
    { stats with red_light := tallyClassStat stats.red_light result }
  else if result.humanLabel = "yellow_light" then
    { stats with yellow_light := tallyClassStat stats.yellow_light result }
  else if result.humanLabel = "green_light" then
    { stats with green_light := tallyClassStat stats.green_light result }
  else if result.humanLabel = "traffic_light" then
    { stats with traffic_light := tallyClassStat stats.traffic_light result }
  else stats

/-- The initial `classStats` literal: all counters zero. -/
def initialClassStats : ClassStats :=
  { red_light := ⟨0, 0⟩, yellow_light := ⟨0, 0⟩, green_light := ⟨0, 0⟩,
    traffic_light := ⟨0, 0⟩ }

/-- `calculateAccuracyMetrics`: `null` on an empty comparison list, otherwise
overall accuracy `correct / total * 100` together with per-class tallies. -/
def calculateAccuracyMetrics (comparisonResults : List ComparisonResult) : Option AccuracyMetrics :=
  if comparisonResults.length = 0 then none
  else
    let correct := (comparisonResults.filter fun r => r.isCorrect).length
    let total := comparisonResults.length
    let accuracy := ((correct : ℚ) / (total : ℚ)) * 100
    let classStats := comparisonResults.foldl updateClassStats initialClassStats
    some { overall := accuracy, total := total, correct := correct, classStats := classStats }

/-! ## Folder selection (`handleFolderSelect`, page.tsx 131-163) -/

/-- `Math.floor(Math.log(bytes) / Math.log(k))` with `k = 1024`, and the
`toFixed(2)`/`parseFloat` rendering.  The real-valued logarithm quotient is
modelled by the integer logarithm `Nat.log 1024` (equal to it on every input
where the floating-point quotient rounds correctly), and the two-decimal
rendering by printing the integer and fractional digits of
`bytes * 100 / 1024 ^ i`.  No claim depends on the rendered text. -/
def formatFileSize (bytes : Nat) : String :=
  if bytes = 0 then "0 Bytes"
  else
    let k := 1024
    let sizes := ["Bytes", "KB", "MB", "GB"]
    let i := Nat.log k bytes
    let scaled := bytes * 100 / k ^ i
    toString (scaled / 100) ++ "." ++ toString (scaled % 100) ++ " " ++ sizes.getD i ""

/-- The filter of `handleFolderSelect`:
`file.type.startsWith("image/") || file.type.startsWith("video/")`. -/
def isMediaFile (file : JSFile) : Bool :=
  file.ftype.startsWith "image/" || file.ftype.startsWith "video/"

/-- One entry of `initialResults`: status `pending`, no detections yet. -/
def initialFileResult (file : JSFile) : FileResult :=
  { fileName := file.name,
    fileSize := formatFileSize file.size,
    detections := [],
    processing_time := 0,
    file_type := if file.ftype.startsWith "image/" then "image" else "video",
    image_preview := none,
    status := FileStatus.pending,
    file := file }

/-- `const mediaFiles = files.filter(...)` — the files kept as `selectedFiles`. -/
def selectMediaFiles (files : List JSFile) : List JSFile :=
  files.filter isMediaFile

/-- The `initialResults` array stored into `batchResults` by
`handleFolderSelect` when at least one media file was selected (an empty
selection only raises an alert and leaves the state unchanged). -/
def initialBatchResults (mediaFiles : List JSFile) : List FileResult :=
  mediaFiles.map initialFileResult

/-! ## Batch processing (`processBatchFiles`, page.tsx 394-475) -/

/-- Modelled from the source's use of `FileReader.readAsDataURL`: the preview
string is a data URL determined by the file's type and bytes alone; the exact
base64 rendering is irrelevant to every claim, so the bytes are printed
directly. -/
def readAsDataURL (file : JSFile) : String :=
  "data:" ++ file.ftype ++ ";" ++ String.intercalate "," (file.content.map toString)

/-- The preview computed inside the loop: only for `image/*` files. -/
def imagePreviewFor (file : JSFile) : Option String :=
  if file.ftype.startsWith "image/" then some (readAsDataURL file) else none

/-- `setBatchResults((prev) => prev.map((result, index) => index === i ?
{ ...result, status: "processing" } : result))`. -/
def markProcessing (i : Nat) (results : List FileResult) : List FileResult :=
  results.mapIdx fun index result =>
    if index = i then { result with status := FileStatus.processing } else result

/-- The second `setBatchResults` of the loop: entry `i` gets its detections,
processing time, status `completed` and preview. -/
def markCompleted (i : Nat) (detections : List Detection) (processingTime : ℚ)
    (imagePreview : Option String) (results : List FileResult) : List FileResult :=
  results.mapIdx fun index result =>
    if index = i then
      { result with
        detections := detections, processing_time := processingTime,
        status := FileStatus.completed, image_preview := imagePreview }
    else result

/-- The mutable state touched by the batch loop: the `batchResults` array, the
local `newComparisonResults` accumulator, `batchProgress` and
`currentProcessingFile`. -/
structure BatchState where
  batchResults : List FileResult
  comparisons : List ComparisonResult
  batchProgress : ℚ
  currentProcessingFile : String
deriving DecidableEq

/-- First half of the loop body for file `i`: record the current file name and
mark entry `i` as `processing`. -/
def stepProcessing (i : Nat) (file : JSFile) (st : BatchState) : BatchState :=
  { st with currentProcessingFile := file.name,
            batchResults := markProcessing i st.batchResults }

/-- Second half of the loop body for file `i`: analyze the file, push a
`ComparisonResult` when a manual annotation and a primary detection both
exist, store the completed entry, and update the progress to
`((i + 1) / total) * 100`. -/
def stepCompleted (total : Nat) (annotations : List ManualAnnotation) (i : Nat)
    (file : JSFile) (st : BatchState) : BatchState :=
  let detections := analyzeImageForTrafficLights file
  let processingTime : ℚ := 1.0 + getDeterministicRandom file.name 9 * 2.0
  let primary := primaryDetection detections
  let manualAnnotation := annotations.find? fun a => a.fileName == file.name
  let comparisons :=
    match manualAnnotation, primary with
    | some ann, some p =>
        st.comparisons ++
          [{ fileName := file.name, humanLabel := ann.humanLabel,
             modelPrediction := p.light_state, modelConfidence := p.confidence,
             isCorrect := ann.humanLabel == p.light_state, file := file }]
    | _, _ => st.comparisons
  { batchResults := markCompleted i detections processingTime (imagePreviewFor file) st.batchResults,
    comparisons := comparisons,
    batchProgress := (((i : ℚ) + 1) / (total : ℚ)) * 100,
    currentProcessingFile := st.currentProcessingFile }

/-- The `for` loop of `processBatchFiles`, file `i` onwards. -/
def batchLoop (total : Nat) (annotations : List ManualAnnotation) :
    Nat → List JSFile → BatchState → BatchState
  | _, [], st => st
  | i, file :: rest, st =>
      batchLoop total annotations (i + 1) rest
        (stepCompleted total annotations i file (stepProcessing i file st))

/-- `processBatchFiles` run over `selectedFiles` with the current
`manualAnnotations`, starting from the state `handleFolderSelect` prepared;
at the end `currentProcessingFile` is reset to the empty string. -/
def processBatchFiles (selectedFiles : List JSFile)
    (manualAnnotations : List ManualAnnotation) : BatchState :=
  let st := batchLoop selectedFiles.length manualAnnotations 0 selectedFiles
    { batchResults := initialBatchResults selectedFiles, comparisons := [],
      batchProgress := 0, currentProcessingFile := "" }
  { st with currentProcessingFile := "" }

/-- All states the batch loop passes through from file `i` onwards: after each
`markProcessing` update and after each `markCompleted` update. -/
def batchTraceFrom (total : Nat) (annotations : List ManualAnnotation) :
    Nat → List JSFile → BatchState → List BatchState
  | _, [], _ => []
  | i, file :: rest, st =>
      let st1 := stepProcessing i file st
      let st2 := stepCompleted total annotations i file st1
      st1 :: st2 :: batchTraceFrom total annotations (i + 1) rest st2

/-- Every state reachable from folder selection through batch processing: the
initial all-`pending` state, then the two per-file updates in order. -/
def batchTrace (selectedFiles : List JSFile)
    (manualAnnotations : List ManualAnnotation) : List BatchState :=
  let init : BatchState :=
    { batchResults := initialBatchResults selectedFiles, comparisons := [],
      batchProgress := 0, currentProcessingFile := "" }
  init :: batchTraceFrom selectedFiles.length manualAnnotations 0 selectedFiles init

/-- A concrete comparison list (3 correct out of 4) used to exercise the
accuracy aggregator. -/
def demoComparisons : List ComparisonResult :=
  [⟨"a.jpg", "red_light", "red_light", 0.8, true, ⟨"a.jpg", 1, "image/jpeg", []⟩⟩,
   ⟨"b.jpg", "green_light", "green_light", 0.8, true, ⟨"b.jpg", 1, "image/jpeg", []⟩⟩,
   ⟨"c.jpg", "red_light", "red_light", 0.8, true, ⟨"c.jpg", 1, "image/jpeg", []⟩⟩,
   ⟨"d.jpg", "yellow_light", "green_light", 0.8, false, ⟨"d.jpg", 1, "image/jpeg", []⟩⟩]

/-- The `FileResult` a file ends up with after its loop iteration. -/
def completedFileResult (file : JSFile) : FileResult :=
  { initialFileResult file with
    detections := analyzeImageForTrafficLights file,
    processing_time := 1.0 + getDeterministicRandom file.name 9 * 2.0,
    status := FileStatus.completed,
    image_preview := imagePreviewFor file }

/-! ## Helper lemmas -/

/-- `toInt32` lands in the signed 32-bit range. -/
lemma toInt32_bounds (n : Int) : -2147483648 ≤ toInt32 n ∧ toInt32 n < 2147483648 := by
  unfold toInt32
  have h0 : (0 : Int) ≤ n % 4294967296 := Int.emod_nonneg n (by norm_num)
  have h1 : n % 4294967296 < 4294967296 := Int.emod_lt_of_pos n (by norm_num)
  by_cases h : n % 4294967296 < 2147483648
  · rw [if_pos h]; omega
  · rw [if_neg h]; omega

/-- The rolling hash always lands in the signed 32-bit range. -/
lemma hashString_bounds (s : String) :
    -2147483648 ≤ hashString s ∧ hashString s < 2147483648 := by
  unfold hashString
  induction s.toList using List.reverseRecOn with
  | nil => norm_num
  | append_singleton l c _ =>
      rw [List.foldl_append, List.foldl_cons, List.foldl_nil]
      exact toInt32_bounds _

/-- The normalized hash is nonnegative. -/
lemma getDeterministicRandom_nonneg (seed : String) (index : Nat) :
    0 ≤ getDeterministicRandom seed index := by
  unfold getDeterministicRandom
  positivity

/-- The true upper bound of the normalized hash: `2^31 / (2^31 - 1)`, which is
slightly more than `1` (attained exactly when the hash is `-2^31`). -/
lemma getDeterministicRandom_le (seed : String) (index : Nat) :
    getDeterministicRandom seed index ≤ 2147483648 / 2147483647 := by
  unfold getDeterministicRandom
  have h := hashString_bounds (seed ++ toString index)
  have habs : ((hashString (seed ++ toString index)).natAbs : ℚ) ≤ 2147483648 := by
    have : (hashString (seed ++ toString index)).natAbs ≤ 2147483648 := by omega
    exact_mod_cast this
  have hpos : (0 : ℚ) < 2147483647 := by norm_num
  rw [div_le_div_iff₀ hpos (by norm_num)]
  nlinarith

/-- Lowercasing a character twice is the same as lowercasing it once. -/
lemma char_toLower_toLower (c : Char) : c.toLower.toLower = c.toLower := by
  simp only [Char.toLower]
  by_cases h : c.toNat ≥ 65 ∧ c.toNat ≤ 90
  · rw [if_pos h]
    have hv : (c.toNat + 32).isValidChar := Or.inl (by omega)
    have ht : (Char.ofNat (c.toNat + 32)).toNat = c.toNat + 32 := by
      rw [Char.ofNat, dif_pos hv]; rfl
    rw [ht, if_neg (by omega)]
  · rw [if_neg h, if_neg h]

/-- Lowercasing a string is idempotent. -/
lemma toLowerString_idem (s : String) :
    toLowerString (toLowerString s) = toLowerString s := by
  simp only [toLowerString, String.toList, List.map_map]
  congr 1
  exact List.map_congr_left fun c _ => char_toLower_toLower c

/-! ## C3: the labeler is a pure function of the file name -/

/-- C3: the labeler is a deterministic function of the file name alone: two
files with the same name — whatever their contents, sizes or MIME types —
receive identical detection lists. -/
theorem labeler_deterministic (f g : JSFile) (h : f.name = g.name) :
    analyzeImageForTrafficLights f = analyzeImageForTrafficLights g := by
  unfold analyzeImageForTrafficLights
  rw [h]

/-- Witness for C3: two concrete files named `red.jpg` with different sizes,
types and contents get the same detections. -/
theorem labeler_deterministic_witness :
    analyzeImageForTrafficLights ⟨"red.jpg", 17, "image/jpeg", [1, 2, 3]⟩ =
      analyzeImageForTrafficLights ⟨"red.jpg", 99999, "image/png", [255]⟩ :=
  labeler_deterministic _ _ rfl

/-! ## C9: case-insensitivity of the labeler -/

/-- C9: the labeler lowercases the name before every keyword test and hash, so
a file and its lowercased-name twin are labeled identically. -/
theorem labeler_case_insensitive (file : JSFile) :
    analyzeImageForTrafficLights { file with name := toLowerString file.name } =
      analyzeImageForTrafficLights file := by
  unfold analyzeImageForTrafficLights
  rw [toLowerString_idem]

/-! ## C4: range of the normalized hash and of the derived confidences -/

/-- C4 (the code bug): the code's own comment says `Normalize to 0-1`, but
`Math.abs` of the most negative 32-bit integer is `2^31` while the divisor is
`2^31 - 1`.  The seed `"1obycoq"` at index `0` hashes to exactly `-2^31`, so
its normalized value exceeds `1` and the derived base confidence exceeds
`0.95`; for the seed `"4dkeayx"`, index 6 hashes to `-2^31` and the generic
confidence exceeds `0.65`. -/
theorem getDeterministicRandom_exceeds_one :
    getDeterministicRandom "1obycoq" 0 > 1 ∧
      baseConfidence "1obycoq" > 0.95 ∧
      genericConfidence "4dkeayx" > 0.65 := by
  have h0 : hashString ("1obycoq" ++ toString 0) = -2147483648 := by decide
  have h6 : hashString ("4dkeayx" ++ toString 6) = -2147483648 := by decide
  refine ⟨?_, ?_, ?_⟩
  · rw [getDeterministicRandom, h0]; norm_num
  · rw [baseConfidence, getDeterministicRandom, h0]; norm_num
  · rw [genericConfidence, getDeterministicRandom, h6]; norm_num

/-! ## C10: the per-file updates only touch the intended fields -/

/-- C10: both per-file updates of `batchResults` leave `fileName`, `fileSize`,
`file_type` and `file` unchanged at every index, and leave entries at indices
other than the updated one entirely unchanged. -/
theorem batch_updates_frame (i : Nat) (rs : List FileResult) (j : Nat)
    (dets : List Detection) (pt : ℚ) (pv : Option String) :
    ((markProcessing i rs)[j]?.map fun r => (r.fileName, r.fileSize, r.file_type, r.file)) =
      (rs[j]?.map fun r => (r.fileName, r.fileSize, r.file_type, r.file)) ∧
    ((markCompleted i dets pt pv rs)[j]?.map fun r => (r.fileName, r.fileSize, r.file_type, r.file)) =
      (rs[j]?.map fun r => (r.fileName, r.fileSize, r.file_type, r.file)) ∧
    (j ≠ i → (markProcessing i rs)[j]? = rs[j]? ∧ (markCompleted i dets pt pv rs)[j]? = rs[j]?) := by
  simp only [markProcessing, markCompleted, List.getElem?_mapIdx]
  refine ⟨?_, ?_, fun hji => ⟨?_, ?_⟩⟩ <;> cases hrs : rs[j]? with
  | none => rfl
  | some r =>
      first
      | (by_cases hj : j = i
         · simp [hj]
         · simp [hj])
      | simp [hji]

/-- Witness for C10: updating entry `0` of a two-entry list leaves entry `1`
untouched. -/
theorem batch_updates_frame_witness :
    (markProcessing 0 [initialFileResult ⟨"a.jpg", 1, "image/jpeg", []⟩,
        initialFileResult ⟨"b.jpg", 2, "image/png", []⟩])[1]? =
      some (initialFileResult ⟨"b.jpg", 2, "image/png", []⟩) := by
  have h := (batch_updates_frame 0
    [initialFileResult ⟨"a.jpg", 1, "image/jpeg", []⟩,
     initialFileResult ⟨"b.jpg", 2, "image/png", []⟩] 1 [] 0 none).2.2 (by decide)
  rw [h.1]
  rfl

/-! ## C6: the accuracy aggregator -/

/-- The `forEach` over `updateClassStats` tallies, per class, the number of
comparisons labeled with that class and the correct ones among them. -/
lemma foldl_updateClassStats (comps : List ComparisonResult) :
    ∀ cs : ClassStats,
    (comps.foldl updateClassStats cs).red_light.total =
        cs.red_light.total + (comps.filter fun c => c.humanLabel == "red_light").length ∧
    (comps.foldl updateClassStats cs).red_light.correct =
        cs.red_light.correct + (comps.filter fun c => c.humanLabel == "red_light" && c.isCorrect).length ∧
    (comps.foldl updateClassStats cs).yellow_light.total =
        cs.yellow_light.total + (comps.filter fun c => c.humanLabel == "yellow_light").length ∧
    (comps.foldl updateClassStats cs).yellow_light.correct =
        cs.yellow_light.correct + (comps.filter fun c => c.humanLabel == "yellow_light" && c.isCorrect).length ∧
    (comps.foldl updateClassStats cs).green_light.total =
        cs.green_light.total + (comps.filter fun c => c.humanLabel == "green_light").length ∧
    (comps.foldl updateClassStats cs).green_light.correct =
        cs.green_light.correct + (comps.filter fun c => c.humanLabel == "green_light" && c.isCorrect).length ∧
    (comps.foldl updateClassStats cs).traffic_light.total =
        cs.traffic_light.total + (comps.filter fun c => c.humanLabel == "traffic_light").length ∧
    (comps.foldl updateClassStats cs).traffic_light.correct =
        cs.traffic_light.correct + (comps.filter fun c => c.humanLabel == "traffic_light" && c.isCorrect).length := by
  induction comps with
  | nil => intro cs; simp
  | cons c rest ih =>
      intro cs
      rw [List.foldl_cons]
      obtain ⟨h1, h2, h3, h4, h5, h6, h7, h8⟩ := ih (updateClassStats cs c)
      by_cases hr : c.humanLabel = "red_light" <;>
        by_cases hy : c.humanLabel = "yellow_light" <;>
          by_cases hg : c.humanLabel = "green_light" <;>
            by_cases ht : c.humanLabel = "traffic_light" <;>
              simp_all [updateClassStats, tallyClassStat, List.filter_cons] <;>
                cases hc : c.isCorrect <;> simp_all <;> omega

/-- C6: `calculateAccuracyMetrics` returns `none` exactly on the empty list;
otherwise the overall accuracy is `correct / total * 100` and the per-class
statistics tally, for each of the four tracked classes, the comparisons whose
`humanLabel` is that class and the correct ones among them. -/
theorem calculateAccuracyMetrics_spec :
    calculateAccuracyMetrics [] = none ∧
    ∀ comps : List ComparisonResult, comps ≠ [] →
      calculateAccuracyMetrics comps =
        some { overall := (((comps.filter fun c => c.isCorrect).length : ℚ) / (comps.length : ℚ)) * 100,
               total := comps.length,
               correct := (comps.filter fun c => c.isCorrect).length,
               classStats :=
                 { red_light := ⟨(comps.filter fun c => c.humanLabel == "red_light" && c.isCorrect).length,
                                 (comps.filter fun c => c.humanLabel == "red_light").length⟩,
                   yellow_light := ⟨(comps.filter fun c => c.humanLabel == "yellow_light" && c.isCorrect).length,
                                    (comps.filter fun c => c.humanLabel == "yellow_light").length⟩,
                   green_light := ⟨(comps.filter fun c => c.humanLabel == "green_light" && c.isCorrect).length,
                                   (comps.filter fun c => c.humanLabel == "green_light").length⟩,
                   traffic_light := ⟨(comps.filter fun c => c.humanLabel == "traffic_light" && c.isCorrect).length,
                                     (comps.filter fun c => c.humanLabel == "traffic_light").length⟩ } } := by
  constructor
  · rfl
  · intro comps hne
    rw [calculateAccuracyMetrics, if_neg (by simpa using hne)]
    have hcs : comps.foldl updateClassStats initialClassStats =
        { red_light := ⟨(comps.filter fun c => c.humanLabel == "red_light" && c.isCorrect).length,
                        (comps.filter fun c => c.humanLabel == "red_light").length⟩,
          yellow_light := ⟨(comps.filter fun c => c.humanLabel == "yellow_light" && c.isCorrect).length,
                           (comps.filter fun c => c.humanLabel == "yellow_light").length⟩,
          green_light := ⟨(comps.filter fun c => c.humanLabel == "green_light" && c.isCorrect).length,
                          (comps.filter fun c => c.humanLabel == "green_light").length⟩,
          traffic_light := ⟨(comps.filter fun c => c.humanLabel == "traffic_light" && c.isCorrect).length,
                            (comps.filter fun c => c.humanLabel == "traffic_light").length⟩ } := by
      obtain ⟨h1, h2, h3, h4, h5, h6, h7, h8⟩ := foldl_updateClassStats comps initialClassStats
      simp only [initialClassStats, Nat.zero_add] at h1 h2 h3 h4 h5 h6 h7 h8
      ext <;> assumption
    rw [hcs]

/-- Witness for C6, the spec's own example: 3 correct comparisons out of 4
yield 75% overall accuracy. -/
theorem calculateAccuracyMetrics_witness :
    calculateAccuracyMetrics demoComparisons =
      some { overall := 75, total := 4, correct := 3,
             classStats := { red_light := ⟨2, 2⟩, yellow_light := ⟨0, 1⟩,
                             green_light := ⟨1, 1⟩, traffic_light := ⟨0, 0⟩ } } := by
  rw [calculateAccuracyMetrics_spec.2 demoComparisons (by decide)]
  have h0 : demoComparisons.length = 4 := by decide
  have h1 : (demoComparisons.filter fun c => c.isCorrect).length = 3 := by decide
  have h2 : (demoComparisons.filter fun c => c.humanLabel == "red_light").length = 2 := by decide
  have h3 : (demoComparisons.filter fun c => c.humanLabel == "red_light" && c.isCorrect).length = 2 := by decide
  have h4 : (demoComparisons.filter fun c => c.humanLabel == "yellow_light").length = 1 := by decide
  have h5 : (demoComparisons.filter fun c => c.humanLabel == "yellow_light" && c.isCorrect).length = 0 := by decide
  have h6 : (demoComparisons.filter fun c => c.humanLabel == "green_light").length = 1 := by decide
  have h7 : (demoComparisons.filter fun c => c.humanLabel == "green_light" && c.isCorrect).length = 1 := by decide
  have h8 : (demoComparisons.filter fun c => c.humanLabel == "traffic_light").length = 0 := by decide
  have h9 : (demoComparisons.filter fun c => c.humanLabel == "traffic_light" && c.isCorrect).length = 0 := by decide
  rw [h0, h1, h2, h3, h4, h5, h6, h7, h8, h9]
  norm_num

/-! ## C1: the tie-break of the primary detection -/

/-- Absorbing one `reduce` step into the list preserves the
last-maximal-detection: dropping whichever of the two leading detections the
step discards does not change where the last maximum sits. -/
lemma lastMaxDetection_cons_cons (d c : Detection) (t : List Detection) :
    lastMaxDetection (d :: c :: t) =
      lastMaxDetection ((if d.confidence > c.confidence then d else c) :: t) := by
  by_cases hdc : d.confidence > c.confidence
  · rw [if_pos hdc]
    unfold lastMaxDetection
    have hp : (fun (x : Detection) => (d :: c :: t).all fun q => decide (q.confidence ≤ x.confidence))
        = (fun (x : Detection) => (d :: t).all fun q => decide (q.confidence ≤ x.confidence)) := by
      funext x
      by_cases hdx : d.confidence ≤ x.confidence
      · have hcx : c.confidence ≤ x.confidence := le_of_lt (lt_of_lt_of_le hdc hdx)
        simp [hdx, hcx]
      · simp [hdx]
    rw [hp]
    rw [List.reverse_cons, List.reverse_cons, List.reverse_cons]
    rw [List.find?_append, List.find?_append, List.find?_append]
    have hc : List.find? (fun x => (d :: t).all fun q => decide (q.confidence ≤ x.confidence)) [c]
        = none := by
      simp [List.find?, not_le.mpr hdc]
    rw [hc, Option.or_none]
  · rw [if_neg hdc]
    have hdc' : d.confidence ≤ c.confidence := le_of_not_lt hdc
    unfold lastMaxDetection
    have hp : (fun (x : Detection) => (d :: c :: t).all fun q => decide (q.confidence ≤ x.confidence))
        = (fun (x : Detection) => (c :: t).all fun q => decide (q.confidence ≤ x.confidence)) := by
      funext x
      by_cases hcx : c.confidence ≤ x.confidence
      · simp [hcx, le_trans hdc' hcx]
      · simp [hcx]
    rw [hp]
    rw [List.reverse_cons, List.reverse_cons]
    rw [List.find?_append, List.find?_append]
    rw [Option.or_assoc]
    have hcd : (List.find? (fun x => (c :: t).all fun q => decide (q.confidence ≤ x.confidence)) [c]).or
          (List.find? (fun x => (c :: t).all fun q => decide (q.confidence ≤ x.confidence)) [d])
        = List.find? (fun x => (c :: t).all fun q => decide (q.confidence ≤ x.confidence)) [c] := by

      by_cases hpc : ((c :: t).all fun q => decide (q.confidence ≤ c.confidence)) = true
      · simp [List.find?, hpc]
      · have hpd : ((c :: t).all fun q => decide (q.confidence ≤ d.confidence)) = false := by
          rw [Bool.eq_false_iff]
          intro h
          apply hpc
          simp only [List.all_eq_true, decide_eq_true_eq] at h ⊢
          exact fun q hq => le_trans (h q hq) hdc'
        simp only [Bool.not_eq_true] at hpc
        simp [List.find?, hpc, hpd]
    rw [hcd]

/-- The source's `reduce` returns exactly the last detection attaining the
maximum confidence. -/
lemma lastMaxDetection_eq_foldl (rest : List Detection) : ∀ d : Detection,
    lastMaxDetection (d :: rest) =
      some (rest.foldl
        (fun prev current => if prev.confidence > current.confidence then prev else current) d) := by
  induction rest with
  | nil =>
      intro d
      simp [lastMaxDetection, List.find?, le_refl]
  | cons c t ih =>
      intro d
      rw [List.foldl_cons, lastMaxDetection_cons_cons]
      exact ih _

/-- C1 as amended: on every nonempty detection list produced by the labeler,
the primary prediction used for comparison is the **last** detection attaining
the maximum confidence (the `reduce` keeps `current` on ties), not the first. -/
theorem primaryDetection_is_last_max (file : JSFile)
    (h : analyzeImageForTrafficLights file ≠ []) :
    primaryDetection (analyzeImageForTrafficLights file) =
      lastMaxDetection (analyzeImageForTrafficLights file) := by
  cases hds : analyzeImageForTrafficLights file with
  | nil => exact absurd hds h
  | cons d rest =>
      rw [primaryDetection]
      exact (lastMaxDetection_eq_foldl rest d).symm

/-- Witness for the amended C1: the file `red.jpg` has a nonempty detection
list, and its primary detection is its last maximal detection. -/
theorem primaryDetection_is_last_max_witness :
    analyzeImageForTrafficLights ⟨"red.jpg", 1000, "image/jpeg", []⟩ ≠ [] ∧
      primaryDetection (analyzeImageForTrafficLights ⟨"red.jpg", 1000, "image/jpeg", []⟩) =
        lastMaxDetection (analyzeImageForTrafficLights ⟨"red.jpg", 1000, "image/jpeg", []⟩) := by
  have hne : analyzeImageForTrafficLights ⟨"red.jpg", 1000, "image/jpeg", []⟩ ≠ [] := by
    simp only [analyzeImageForTrafficLights,
      show toLowerString "red.jpg" = "red.jpg" from by decide,
      show strIncludes "red.jpg" "red" = true from by decide, Bool.true_or]
    simp
  exact ⟨hne, primaryDetection_is_last_max _ hne⟩

/-- C1 as stated is false: `redgo.jpg` triggers the red rule and the green
rule with the same base confidence, so two distinct detections share the
maximum confidence, yet the primary prediction is not the first of them. -/
theorem primaryDetection_tie_counterexample :
    (∃ d₁ ∈ analyzeImageForTrafficLights ⟨"redgo.jpg", 1000, "image/jpeg", []⟩,
       ∃ d₂ ∈ analyzeImageForTrafficLights ⟨"redgo.jpg", 1000, "image/jpeg", []⟩,
         d₁ ≠ d₂ ∧
         (∀ q ∈ analyzeImageForTrafficLights ⟨"redgo.jpg", 1000, "image/jpeg", []⟩,
            q.confidence ≤ d₁.confidence) ∧
         (∀ q ∈ analyzeImageForTrafficLights ⟨"redgo.jpg", 1000, "image/jpeg", []⟩,
            q.confidence ≤ d₂.confidence)) ∧
    primaryDetection (analyzeImageForTrafficLights ⟨"redgo.jpg", 1000, "image/jpeg", []⟩) ≠
      firstMaxDetection (analyzeImageForTrafficLights ⟨"redgo.jpg", 1000, "image/jpeg", []⟩) := by
  have h5 : decide (getDeterministicRandom "redgo.jpg" 3 > 0.7) = false := by
    apply decide_eq_false
    have h : hashString ("redgo.jpg" ++ toString 3) = -462450681 := by decide
    rw [getDeterministicRandom, h]
    norm_num
  have hds : analyzeImageForTrafficLights ⟨"redgo.jpg", 1000, "image/jpeg", []⟩ =
      [{ bbox := [150 + bboxVariation1 "redgo.jpg", 100 + bboxVariation2 "redgo.jpg", 200, 180],
         confidence := baseConfidence "redgo.jpg", cls := "traffic_light",
         light_state := "red_light" },
       { bbox := [300 + bboxVariation1 "redgo.jpg", 120 + bboxVariation2 "redgo.jpg", 350, 200],
         confidence := baseConfidence "redgo.jpg", cls := "traffic_light",
         light_state := "green_light" }] := by
    simp only [analyzeImageForTrafficLights,
      show toLowerString "redgo.jpg" = "redgo.jpg" from by decide,
      show strIncludes "redgo.jpg" "red" = true from by decide,
      show strIncludes "redgo.jpg" "go" = true from by decide,
      show strIncludes "redgo.jpg" "green" = false from by decide,
      show strIncludes "redgo.jpg" "yellow" = false from by decide,
      show strIncludes "redgo.jpg" "amber" = false from by decide,
      show strIncludes "redgo.jpg" "caution" = false from by decide,
      show strIncludes "redgo.jpg" "traffic" = false from by decide,
      show strIncludes "redgo.jpg" "light" = false from by decide,
      show strIncludes "redgo.jpg" "signal" = false from by decide,
      h5, Bool.or_false, Bool.false_or, Bool.or_true, Bool.true_or,
      Bool.false_and, Bool.and_false]
    simp
  rw [hds]
  have hstates : ("red_light" : String) ≠ "green_light" := by decide
  constructor
  · refine ⟨_, List.mem_cons_self _ _, _, List.mem_cons_of_mem _ (List.mem_cons_self _ _), ?_, ?_, ?_⟩
    · intro h
      exact hstates (congrArg Detection.light_state h)
    · intro q hq
      rcases List.mem_cons.mp hq with h | h
      · rw [h]
      · rcases List.mem_cons.mp h with h' | h'
        · rw [h']
        · exact absurd h' (List.not_mem_nil q)
    · intro q hq
      rcases List.mem_cons.mp hq with h | h
      · rw [h]
      · rcases List.mem_cons.mp h with h' | h'
        · rw [h']
        · exact absurd h' (List.not_mem_nil q)
  · have hle : decide ((baseConfidence "redgo.jpg") ≤ (baseConfidence "redgo.jpg")) = true :=
      decide_eq_true (le_refl _)
    have hlt : (baseConfidence "redgo.jpg" > baseConfidence "redgo.jpg") = False := by
      simp [lt_irrefl]
    simp only [primaryDetection, firstMaxDetection, List.foldl_cons, List.foldl_nil,
      List.find?, List.all_cons, List.all_nil, hle, hlt, if_false, Bool.and_true,
      Bool.true_and, Bool.and_self]
    intro h
    have := Option.some.inj h
    exact hstates (congrArg Detection.light_state this).symm

/-! ## C2: the "traffic"-only rule -/

/-- C2 as stated is false: `traffic_light.jpg` contains `traffic` and none of
the color words `red`/`green`/`yellow`, yet the labeler returns 4 detections,
not 3 — the generic rule also fires because the name contains `light`. -/
theorem trafficOnly_counterexample :
    strIncludes "traffic_light.jpg" "traffic" = true ∧
    strIncludes "traffic_light.jpg" "red" = false ∧
    strIncludes "traffic_light.jpg" "green" = false ∧
    strIncludes "traffic_light.jpg" "yellow" = false ∧
    (analyzeImageForTrafficLights ⟨"traffic_light.jpg", 1000, "image/jpeg", []⟩).length = 4 ∧
    (analyzeImageForTrafficLights ⟨"traffic_light.jpg", 1000, "image/jpeg", []⟩).length ≠ 3 := by
  refine ⟨by decide, by decide, by decide, by decide, ?_, ?_⟩ <;>
  · simp only [analyzeImageForTrafficLights,
      show toLowerString "traffic_light.jpg" = "traffic_light.jpg" from by decide,
      show strIncludes "traffic_light.jpg" "red" = false from by decide,
      show strIncludes "traffic_light.jpg" "stop" = false from by decide,
      show strIncludes "traffic_light.jpg" "green" = false from by decide,
      show strIncludes "traffic_light.jpg" "go" = false from by decide,
      show strIncludes "traffic_light.jpg" "yellow" = false from by decide,
      show strIncludes "traffic_light.jpg" "amber" = false from by decide,
      show strIncludes "traffic_light.jpg" "caution" = false from by decide,
      show strIncludes "traffic_light.jpg" "traffic" = true from by decide,
      show strIncludes "traffic_light.jpg" "light" = true from by decide,
      Bool.or_false, Bool.false_or, Bool.or_true, Bool.true_or, Bool.not_false,
      Bool.and_self, Bool.true_and, Bool.and_true]
    simp

/-- C2 as amended: when the lowercased name contains `traffic` and none of the
nine keywords of the other rules, and the index-3 hash value does not exceed
`0.7`, the labeler returns exactly the three fixed-position detections (red at
base confidence, yellow at base − 0.05, green at base + 0.02). -/
theorem trafficOnly_three_detections (file : JSFile)
    (htraffic : strIncludes (toLowerString file.name) "traffic" = true)
    (hred : strIncludes (toLowerString file.name) "red" = false)
    (hstop : strIncludes (toLowerString file.name) "stop" = false)
    (hgreen : strIncludes (toLowerString file.name) "green" = false)
    (hgo : strIncludes (toLowerString file.name) "go" = false)
    (hyellow : strIncludes (toLowerString file.name) "yellow" = false)
    (hamber : strIncludes (toLowerString file.name) "amber" = false)
    (hcaution : strIncludes (toLowerString file.name) "caution" = false)
    (hlight : strIncludes (toLowerString file.name) "light" = false)
    (hsignal : strIncludes (toLowerString file.name) "signal" = false)
    (hrand : getDeterministicRandom (toLowerString file.name) 3 ≤ 0.7) :
    analyzeImageForTrafficLights file =
      [⟨[120, 80, 170, 160], baseConfidence (toLowerString file.name),
        "traffic_light", "red_light"⟩,
       ⟨[120, 170, 170, 250], baseConfidence (toLowerString file.name) - 0.05,
        "traffic_light", "yellow_light"⟩,
       ⟨[120, 260, 170, 340], baseConfidence (toLowerString file.name) + 0.02,
        "traffic_light", "green_light"⟩] := by
  have h5 : decide (getDeterministicRandom (toLowerString file.name) 3 > 0.7) = false :=
    decide_eq_false (not_lt.mpr hrand)
  simp only [analyzeImageForTrafficLights, htraffic, hred, hstop, hgreen, hgo, hyellow,
    hamber, hcaution, hlight, hsignal, h5, Bool.or_false, Bool.false_or, Bool.not_false,
    Bool.and_self, Bool.true_and, Bool.and_true]
  simp

/-- Witness for the amended C2: `traffic.jpg` satisfies every hypothesis and
gets exactly the three fixed detections. -/
theorem trafficOnly_three_detections_witness :
    analyzeImageForTrafficLights ⟨"traffic.jpg", 1000, "image/jpeg", []⟩ =
      [⟨[120, 80, 170, 160], baseConfidence "traffic.jpg", "traffic_light", "red_light"⟩,
       ⟨[120, 170, 170, 250], baseConfidence "traffic.jpg" - 0.05, "traffic_light", "yellow_light"⟩,
       ⟨[120, 260, 170, 340], baseConfidence "traffic.jpg" + 0.02, "traffic_light", "green_light"⟩] := by
  have hlow : toLowerString (JSFile.name ⟨"traffic.jpg", 1000, "image/jpeg", []⟩) = "traffic.jpg" := by
    decide
  have hrand : getDeterministicRandom (toLowerString (JSFile.name ⟨"traffic.jpg", 1000, "image/jpeg", []⟩)) 3 ≤ 0.7 := by
    rw [hlow]
    have h : hashString ("traffic.jpg" ++ toString 3) = 792636867 := by decide
    rw [getDeterministicRandom, h]
    norm_num
  have h := trafficOnly_three_detections ⟨"traffic.jpg", 1000, "image/jpeg", []⟩
    (by decide) (by decide) (by decide) (by decide) (by decide) (by decide) (by decide)
    (by decide) (by decide) (by decide) hrand
  rw [h, hlow]

/-! ## Structure of the batch loop -/

/-- `mapIdx` with the identity update is the identity. -/
lemma mapIdx_id (l : List FileResult) : l.mapIdx (fun _ x => x) = l := by
  induction l with
  | nil => rfl
  | cons a t ih =>
      rw [List.mapIdx_cons]
      exact congrArg _ ih

/-- An index-targeted `mapIdx` update rewrites exactly the entry at the target
position and leaves the rest alone. -/
lemma mapIdx_update_append (g : FileResult → FileResult) :
    ∀ (A : List FileResult) (r : FileResult) (B : List FileResult),
      (A ++ r :: B).mapIdx (fun idx x => if idx = A.length then g x else x) = A ++ g r :: B := by
  intro A
  induction A with
  | nil =>
      intro r B
      simp only [List.nil_append, List.length_nil, List.mapIdx_cons, if_pos rfl]
      congr 1
      have hfun : (fun (i : Nat) (x : FileResult) => if i + 1 = 0 then g x else x)
          = fun _ x => x := by
        funext i x
        simp
      calc List.mapIdx (fun i => (fun idx x => if idx = 0 then g x else x) (i + 1)) B
          = List.mapIdx (fun _ x => x) B := by rw [show (fun (i : Nat) => (fun idx (x : FileResult) => if idx = 0 then g x else x) (i + 1)) = fun _ x => x from hfun]
        _ = B := mapIdx_id B
  | cons a A' ih =>
      intro r B
      simp only [List.cons_append, List.mapIdx_cons, List.length_cons]
      rw [if_neg (by omega)]
      congr 1
      have hfun : (fun (i : Nat) (x : FileResult) => if i + 1 = A'.length + 1 then g x else x)
          = fun (i : Nat) (x : FileResult) => if i = A'.length then g x else x := by
        funext i x
        simp
      calc List.mapIdx (fun i => (fun idx x => if idx = A'.length + 1 then g x else x) (i + 1)) (A' ++ r :: B)
          = List.mapIdx (fun (i : Nat) (x : FileResult) => if i = A'.length then g x else x) (A' ++ r :: B) := by
            rw [show (fun (i : Nat) => (fun idx (x : FileResult) => if idx = A'.length + 1 then g x else x) (i + 1)) = fun (i : Nat) (x : FileResult) => if i = A'.length then g x else x from hfun]
        _ = A' ++ g r :: B := ih r B

/-- `markProcessing` at the position right after the prefix `A`. -/
lemma markProcessing_at (A : List FileResult) (r : FileResult) (B : List FileResult) :
    markProcessing A.length (A ++ r :: B) =
      A ++ { r with status := FileStatus.processing } :: B :=
  mapIdx_update_append _ A r B

/-- `markCompleted` at the position right after the prefix `A`. -/
lemma markCompleted_at (A : List FileResult) (r : FileResult) (B : List FileResult)
    (dets : List Detection) (pt : ℚ) (pv : Option String) :
    markCompleted A.length dets pt pv (A ++ r :: B) =
      A ++ { r with detections := dets, processing_time := pt,
                    status := FileStatus.completed, image_preview := pv } :: B :=
  mapIdx_update_append _ A r B

/-- Applying the loop's two per-entry updates to a pending entry yields the
completed record of that file. -/
lemma completed_after_processing (f : JSFile) :
    ({ { initialFileResult f with status := FileStatus.processing } with
       detections := analyzeImageForTrafficLights f,
       processing_time := 1.0 + getDeterministicRandom f.name 9 * 2.0,
       status := FileStatus.completed, image_preview := imagePreviewFor f } : FileResult)
      = completedFileResult f := by
  simp only [completedFileResult]

/-- Running the loop over the remaining files turns exactly their pending
entries into completed ones, in place. -/
lemma batchLoop_results (total : Nat) (ann : List ManualAnnotation) :
    ∀ (rest : List JSFile) (A : List FileResult) (st : BatchState),
      st.batchResults = A ++ rest.map initialFileResult →
      (batchLoop total ann A.length rest st).batchResults = A ++ rest.map completedFileResult := by
  intro rest
  induction rest with
  | nil =>
      intro A st h
      simpa [batchLoop] using h
  | cons f rest' ih =>
      intro A st h
      rw [List.map_cons] at h
      rw [batchLoop]
      have hst2 : (stepCompleted total ann A.length f (stepProcessing A.length f st)).batchResults
          = (A ++ [completedFileResult f]) ++ rest'.map initialFileResult := by
        simp only [stepCompleted, stepProcessing]
        rw [h, markProcessing_at, markCompleted_at, completed_after_processing]
        rw [List.append_assoc, List.singleton_append]
      have := ih (A ++ [completedFileResult f])
        (stepCompleted total ann A.length f (stepProcessing A.length f st)) hst2
      rw [List.length_append, List.length_singleton] at this
      rw [this, List.append_assoc, List.singleton_append, List.map_cons]

/-- The final `batchResults` of a run: every input file, in order, with its
completed record. -/
lemma processBatchFiles_results (files : List JSFile) (ann : List ManualAnnotation) :
    (processBatchFiles files ann).batchResults = files.map completedFileResult := by
  unfold processBatchFiles
  exact batchLoop_results files.length ann files []
    { batchResults := initialBatchResults files, comparisons := [],
      batchProgress := 0, currentProcessingFile := "" } rfl

/-! ## C7: shape of a batch run -/

/-- In the loop's trace, the state right after finishing the `k`-th remaining
file carries progress `((i + k + 1) / total) * 100`. -/
lemma batchTraceFrom_progress (total : Nat) (ann : List ManualAnnotation) :
    ∀ (rest : List JSFile) (k i : Nat) (st : BatchState), k < rest.length →
      ∃ st', (batchTraceFrom total ann i rest st)[2 * k + 1]? = some st' ∧
        st'.batchProgress = (((i : ℚ) + (k : ℚ) + 1) / (total : ℚ)) * 100 := by
  intro rest
  induction rest with
  | nil =>
      intro k i st hk
      simp at hk
  | cons f rest' ih =>
      intro k i st hk
      cases k with
      | zero =>
          refine ⟨stepCompleted total ann i f (stepProcessing i f st), ?_, ?_⟩
          · rw [batchTraceFrom]
            norm_num
          · simp [stepCompleted]
      | succ k' =>
          have hk' : k' < rest'.length := by
            simpa using Nat.lt_of_succ_lt_succ hk
          obtain ⟨st', hget, hprog⟩ :=
            ih k' (i + 1) (stepCompleted total ann i f (stepProcessing i f st)) hk'
          refine ⟨st', ?_, ?_⟩
          · rw [batchTraceFrom]
            have hidx : 2 * (k' + 1) + 1 = (2 * k' + 1) + 1 + 1 := by omega
            rw [hidx, List.getElem?_cons_succ, List.getElem?_cons_succ]
            exact hget
          · rw [hprog]
            push_cast
            ring_nf

/-- C7: a batch over `N` files yields exactly `N` results, in input order, all
`completed`, and the state recorded right after the `k`-th file (1-based
`k + 1`) carries progress `((k + 1) / N) * 100`. -/
theorem processBatchFiles_spec (files : List JSFile) (ann : List ManualAnnotation) :
    (processBatchFiles files ann).batchResults.length = files.length ∧
    (processBatchFiles files ann).batchResults.map (fun r => r.fileName) =
      files.map (fun f => f.name) ∧
    (∀ r ∈ (processBatchFiles files ann).batchResults, r.status = FileStatus.completed) ∧
    (∀ k, k < files.length →
      ∃ st, (batchTrace files ann)[2 * (k + 1)]? = some st ∧
        st.batchProgress = (((k : ℚ) + 1) / (files.length : ℚ)) * 100) := by
  have hres := processBatchFiles_results files ann
  refine ⟨?_, ?_, ?_, ?_⟩
  · rw [hres, List.length_map]
  · rw [hres, List.map_map]
    rfl
  · intro r hr
    rw [hres] at hr
    obtain ⟨f, _, rfl⟩ := List.mem_map.mp hr
    rfl
  · intro k hk
    obtain ⟨st, hget, hprog⟩ := batchTraceFrom_progress files.length ann files k 0
      { batchResults := initialBatchResults files, comparisons := [],
        batchProgress := 0, currentProcessingFile := "" } hk
    refine ⟨st, ?_, ?_⟩
    · rw [batchTrace]
      have hidx : 2 * (k + 1) = (2 * k + 1) + 1 := by omega
      rw [hidx, List.getElem?_cons_succ]
      exact hget
    · rw [hprog]
      norm_num

/-- Witness for C7: one file gives one completed result and 100% progress
after it. -/
theorem processBatchFiles_spec_witness :
    (processBatchFiles [⟨"red.jpg", 1000, "image/jpeg", []⟩] []).batchResults.length = 1 ∧
    (∃ st, (batchTrace [⟨"red.jpg", 1000, "image/jpeg", []⟩] [])[2]? = some st ∧
      st.batchProgress = 100) := by
  have h := processBatchFiles_spec [⟨"red.jpg", 1000, "image/jpeg", []⟩] []
  refine ⟨by rw [h.1]; rfl, ?_⟩
  obtain ⟨st, hget, hprog⟩ := h.2.2.2 0 (by norm_num)
  refine ⟨st, by simpa using hget, ?_⟩
  rw [hprog]
  norm_num

/-! ## C5: every comparison comes from an annotated file with detections -/

/-- A detection list with a primary detection is nonempty. -/
lemma ne_nil_of_primaryDetection (ds : List Detection) (p : Detection)
    (h : primaryDetection ds = some p) : ds ≠ [] := by
  intro hnil
  rw [hnil] at h
  simp [primaryDetection] at h

/-- Invariant of the loop: every accumulated comparison names a processed file
that has a matching manual annotation and a nonempty detection list. -/
lemma batchLoop_comparisons (total : Nat) (ann : List ManualAnnotation)
    (files : List JSFile) :
    ∀ (rest : List JSFile) (i : Nat) (st : BatchState),
      (∀ f ∈ rest, f ∈ files) →
      (∀ c ∈ st.comparisons, ∃ f ∈ files, c.fileName = f.name ∧
          analyzeImageForTrafficLights f ≠ [] ∧ ∃ a ∈ ann, a.fileName = f.name) →
      ∀ c ∈ (batchLoop total ann i rest st).comparisons,
        ∃ f ∈ files, c.fileName = f.name ∧ analyzeImageForTrafficLights f ≠ [] ∧
          ∃ a ∈ ann, a.fileName = f.name := by
  intro rest
  induction rest with
  | nil =>
      intro i st _ hinv
      simpa [batchLoop] using hinv
  | cons f rest' ih =>
      intro i st hsub hinv
      rw [batchLoop]
      apply ih (i + 1) _ (fun g hg => hsub g (List.mem_cons_of_mem _ hg))
      intro c hc
      simp only [stepCompleted, stepProcessing] at hc
      rcases hfind : ann.find? (fun a => a.fileName == f.name) with _ | a <;>
        rcases hprim : primaryDetection (analyzeImageForTrafficLights f) with _ | p <;>
          rw [hfind, hprim] at hc
      · exact hinv c hc
      · exact hinv c hc
      · exact hinv c hc
      · rcases List.mem_append.mp hc with hold | hnew
        · exact hinv c hold
        · have hcnew := List.mem_singleton.mp hnew
          refine ⟨f, hsub f (List.mem_cons_self f rest'), ?_, ?_, a,
            List.mem_of_find?_eq_some hfind, ?_⟩
          · rw [hcnew]
          · exact ne_nil_of_primaryDetection _ p hprim
          · have := List.find?_some hfind
            exact beq_iff_eq.mp this

/-- C5: after a batch run every `ComparisonResult` names an input file that
has a manual annotation matching its name and at least one detection; and
every file — with or without detections — still ends up tracked with a
`completed` `FileResult`. -/
theorem comparisons_require_annotation_and_detection (files : List JSFile)
    (ann : List ManualAnnotation) :
    (∀ c ∈ (processBatchFiles files ann).comparisons,
       ∃ f ∈ files, c.fileName = f.name ∧ analyzeImageForTrafficLights f ≠ [] ∧
         ∃ a ∈ ann, a.fileName = f.name) ∧
    (∀ f ∈ files, ∃ r ∈ (processBatchFiles files ann).batchResults,
       r.fileName = f.name ∧ r.status = FileStatus.completed) := by
  constructor
  · intro c hc
    have : (processBatchFiles files ann).comparisons =
        (batchLoop files.length ann 0 files
          { batchResults := initialBatchResults files, comparisons := [],
            batchProgress := 0, currentProcessingFile := "" }).comparisons := rfl
    rw [this] at hc
    exact batchLoop_comparisons files.length ann files files 0 _
      (fun _ hf => hf) (by intro c' hc'; simp at hc') c hc
  · intro f hf
    refine ⟨completedFileResult f, ?_, rfl, rfl⟩
    rw [processBatchFiles_results]
    exact List.mem_map_of_mem _ hf

/-- Witness for C5: a batch with one annotated `red.jpg` file; its single
comparison indeed names a file with an annotation and detections, and the file
is tracked as completed. -/
theorem comparisons_require_annotation_and_detection_witness :
    (∀ c ∈ (processBatchFiles [⟨"red.jpg", 1000, "image/jpeg", []⟩]
              [⟨"red.jpg", "red_light", 1⟩]).comparisons,
       ∃ f ∈ [(⟨"red.jpg", 1000, "image/jpeg", []⟩ : JSFile)], c.fileName = f.name ∧
         analyzeImageForTrafficLights f ≠ [] ∧
         ∃ a ∈ [(⟨"red.jpg", "red_light", 1⟩ : ManualAnnotation)], a.fileName = f.name) ∧
    (∃ r ∈ (processBatchFiles [⟨"red.jpg", 1000, "image/jpeg", []⟩]
              [⟨"red.jpg", "red_light", 1⟩]).batchResults,
       r.fileName = "red.jpg" ∧ r.status = FileStatus.completed) := by
  have h := comparisons_require_annotation_and_detection
    [⟨"red.jpg", 1000, "image/jpeg", []⟩] [⟨"red.jpg", "red_light", 1⟩]
  exact ⟨h.1, h.2 ⟨"red.jpg", 1000, "image/jpeg", []⟩ (List.mem_singleton.mpr rfl)⟩

/-! ## C8: the `error` status is never reached -/

/-- `markProcessing` preserves freedom from the `error` status. -/
lemma markProcessing_no_error (i : Nat) (rs : List FileResult)
    (hrs : ∀ r ∈ rs, r.status ≠ FileStatus.error) :
    ∀ r' ∈ markProcessing i rs, r'.status ≠ FileStatus.error := by
  intro r' hr'
  rw [List.mem_iff_getElem?] at hr'
  obtain ⟨j, hj⟩ := hr'
  rw [markProcessing, List.getElem?_mapIdx] at hj
  rcases hrs' : rs[j]? with _ | r
  · rw [hrs'] at hj
    simp at hj
  · rw [hrs'] at hj
    simp only [Option.map_some'] at hj
    have hmem : r ∈ rs := List.getElem?_mem hrs'
    by_cases hji : j = i
    · rw [if_pos hji] at hj
      rw [← Option.some.inj hj]
      exact fun hcontra => FileStatus.noConfusion hcontra
    · rw [if_neg hji] at hj
      rw [← Option.some.inj hj]
      exact hrs r hmem

/-- `markCompleted` preserves freedom from the `error` status. -/
lemma markCompleted_no_error (i : Nat) (dets : List Detection) (pt : ℚ)
    (pv : Option String) (rs : List FileResult)
    (hrs : ∀ r ∈ rs, r.status ≠ FileStatus.error) :
    ∀ r' ∈ markCompleted i dets pt pv rs, r'.status ≠ FileStatus.error := by
  intro r' hr'
  rw [List.mem_iff_getElem?] at hr'
  obtain ⟨j, hj⟩ := hr'
  rw [markCompleted, List.getElem?_mapIdx] at hj
  rcases hrs' : rs[j]? with _ | r
  · rw [hrs'] at hj
    simp at hj
  · rw [hrs'] at hj
    simp only [Option.map_some'] at hj
    have hmem : r ∈ rs := List.getElem?_mem hrs'
    by_cases hji : j = i
    · rw [if_pos hji] at hj
      rw [← Option.some.inj hj]
      exact fun hcontra => FileStatus.noConfusion hcontra
    · rw [if_neg hji] at hj
      rw [← Option.some.inj hj]
      exact hrs r hmem

/-- Every state in the loop's trace keeps every entry's status away from
`error`. -/
lemma batchTraceFrom_no_error (total : Nat) (ann : List ManualAnnotation) :
    ∀ (rest : List JSFile) (i : Nat) (st : BatchState),
      (∀ r ∈ st.batchResults, r.status ≠ FileStatus.error) →
      ∀ s ∈ batchTraceFrom total ann i rest st,
        ∀ r ∈ s.batchResults, r.status ≠ FileStatus.error := by
  intro rest
  induction rest with
  | nil =>
      intro i st _ s hs
      simp [batchTraceFrom] at hs
  | cons f rest' ih =>
      intro i st hst s hs
      have h1 : ∀ r ∈ (stepProcessing i f st).batchResults, r.status ≠ FileStatus.error :=
        markProcessing_no_error i st.batchResults hst
      have h2 : ∀ r ∈ (stepCompleted total ann i f (stepProcessing i f st)).batchResults,
          r.status ≠ FileStatus.error :=
        markCompleted_no_error i _ _ _ _ h1
      rw [batchTraceFrom] at hs
      rcases List.mem_cons.mp hs with h | hs'
      · rw [h]; exact h1
      · rcases List.mem_cons.mp hs' with h | hs''
        · rw [h]; exact h2
        · exact ih (i + 1) _ h2 s hs''

/-- C8: in every state reachable from folder selection through batch
processing, every `FileResult`'s status is `pending`, `processing` or
`completed` — never `error`. -/
theorem status_never_error (files : List JSFile) (ann : List ManualAnnotation)
    (st : BatchState) (hst : st ∈ batchTrace files ann)
    (r : FileResult) (hr : r ∈ st.batchResults) :
    r.status = FileStatus.pending ∨ r.status = FileStatus.processing ∨
      r.status = FileStatus.completed := by
  have hinit : ∀ r' ∈ initialBatchResults files, r'.status ≠ FileStatus.error := by
    intro r' hr'
    obtain ⟨f, _, rfl⟩ := List.mem_map.mp hr'
    exact fun hcontra => FileStatus.noConfusion hcontra
  have hne : r.status ≠ FileStatus.error := by
    rw [batchTrace] at hst
    rcases List.mem_cons.mp hst with h | hs
    · rw [h] at hr
      exact hinit r hr
    · exact batchTraceFrom_no_error files.length ann files 0 _ hinit st hs r hr
  cases h : r.status
  · exact Or.inl rfl
  · exact Or.inr (Or.inl rfl)
  · exact Or.inr (Or.inr rfl)
  · exact absurd h hne

/-- Witness for C8: the initial state of a one-file batch is in the trace and
its single entry's status is among the three non-error statuses. -/
theorem status_never_error_witness :
    (initialFileResult ⟨"red.jpg", 1000, "image/jpeg", []⟩).status = FileStatus.pending ∨
    (initialFileResult ⟨"red.jpg", 1000, "image/jpeg", []⟩).status = FileStatus.processing ∨
    (initialFileResult ⟨"red.jpg", 1000, "image/jpeg", []⟩).status = FileStatus.completed := by
  refine status_never_error [⟨"red.jpg", 1000, "image/jpeg", []⟩] []
    { batchResults := initialBatchResults [⟨"red.jpg", 1000, "image/jpeg", []⟩],
      comparisons := [], batchProgress := 0, currentProcessingFile := "" }
    ?_ (initialFileResult ⟨"red.jpg", 1000, "image/jpeg", []⟩) ?_
  · rw [batchTrace]
    exact List.mem_cons_self _ _
  · exact List.mem_singleton.mpr rfl

end TrafficLightSim
